import Mathlib

/-!
# Verification of the `firestarter` game engine

A shallow embedding of `firestarter/game_engine/engine.py` (class `Engine`)
and proofs about it.  The embedding models:

* the keyboard handlers `_on_keyboard_down` / `_on_keyboard_up` and the
  `pressed_keys` set (lines 120-144);
* the keyboard clean-up `_keyboard_closed` (lines 114-118);
* the per-frame passes `_update` (lines 102-112) and `_animate`
  (lines 96-100) over the `self.sprites` registry, including the exact
  CPython semantics of a `for` loop over a list that is mutated in place
  by `list.remove` during the iteration;
* the asset loader `load_sprite_sheets` (lines 41-78).

Side effects that do not touch the modelled state (logging, the kivy
widget tree via `add_widget` / `remove_widget`, GPU texture upload) are
omitted.  Calls into code outside the engine (`sprite.update`,
`sprite.cycle_animation`, the user `update` hook) are recorded as events
in a trace rather than interpreted, since only the engine's own control
flow is under verification here.
-/

namespace Firestarter

/-! ## Keyboard input (engine.py lines 114-144)

Kivy delivers a key code as a pair `(int, string)`; both handlers store
and remove `key_code[1]`, and `pressed_keys` is a Python `set`, modelled
as a `Finset String`. -/

/-- A Python `KeyError`, raised by `set.remove` on an absent element. -/
inductive KeyError where
  | keyError
deriving DecidableEq, Repr

/-- Lines 120-134: `self.pressed_keys.add(key_code[1])`. -/
def _on_keyboard_down (pressed_keys : Finset String) (key_code : Nat × String) :
    Finset String :=
  insert key_code.2 pressed_keys

/-- Lines 136-144: `self.pressed_keys.remove(key_code[1])`.
Python `set.remove` deletes the element, raising `KeyError` when it is
absent (unlike `set.discard`). -/
def _on_keyboard_up (pressed_keys : Finset String) (key_code : Nat × String) :
    Except KeyError (Finset String) :=
  if key_code.2 ∈ pressed_keys then .ok (pressed_keys.erase key_code.2)
  else .error .keyError

/-- The two bound methods that can appear as kivy event callbacks. -/
inductive Handler where
  | onKeyboardDown
  | onKeyboardUp
deriving DecidableEq, Repr

/-- The callback bindings of the kivy keyboard object: which handler (if
any) is bound to each of its two events. -/
structure KeyboardState where
  onKeyDownBinding : Option Handler
  onKeyUpBinding : Option Handler
deriving DecidableEq, Repr

/-- Kivy `keyboard.unbind(on_key_down=cb)`: the binding is dropped only
when `cb` is the currently bound callback; otherwise a no-op. -/
def unbindKeyDown (kb : KeyboardState) (cb : Handler) : KeyboardState :=
  if kb.onKeyDownBinding = some cb then { kb with onKeyDownBinding := none } else kb

/-- Kivy `keyboard.unbind(on_key_up=cb)`: the binding is dropped only
when `cb` is the currently bound callback; otherwise a no-op. -/
def unbindKeyUp (kb : KeyboardState) (cb : Handler) : KeyboardState :=
  if kb.onKeyUpBinding = some cb then { kb with onKeyUpBinding := none } else kb

/-- Lines 24-26 of `__init__`: the keyboard as bound on acquisition:
`on_key_down` to `_on_keyboard_down`, `on_key_up` to `_on_keyboard_up`. -/
def initialKeyboard : KeyboardState :=
  { onKeyDownBinding := some .onKeyboardDown, onKeyUpBinding := some .onKeyboardUp }

/-- Lines 114-118, transcribed statement by statement:
`self._keyboard.unbind(on_key_down=self._on_keyboard_down)`;
`self._keyboard.unbind(on_key_up=self._on_keyboard_down)`  (note: the
source passes `_on_keyboard_down`, not `_on_keyboard_up`, on line 117);
`self._keyboard = None`.  Returns the keyboard's binding state after the
two `unbind` calls, paired with the value stored in `self._keyboard`
afterwards (`none` models Python `None`). -/
def _keyboard_closed (kb : KeyboardState) : KeyboardState × Option Unit :=
  let kb1 := unbindKeyDown kb .onKeyboardDown
  let kb2 := unbindKeyUp kb1 .onKeyboardDown
  (kb2, none)

/-! ## The sprite registry and the per-frame passes (lines 92-112)

A sprite is identified by `id` (distinct Python objects are distinct;
kivy widgets compare by identity) and carries the `killed` flag read by
`_update`.  Everything the passes do to the outside world is recorded as
a trace of `Event`s. -/

structure Sprite where
  id : Nat
  killed : Bool
deriving DecidableEq, Repr

/-- Observable actions of one frame of the engine. -/
inductive Event where
  /-- `sprite.update(self.sprites)` was called: the subject together with
  the peer list passed to it (the registry as it stood at that moment). -/
  | updated (s : Sprite) (peers : List Sprite)
  /-- `self.sprites.remove(sprite)` (with `self.remove_widget(sprite)`). -/
  | removed (s : Sprite)
  /-- `sprite.cycle_animation()` was called. -/
  | animated (s : Sprite)
  /-- the user hook `self.update(dt)` was called. -/
  | hooked (dt : ℚ)
deriving DecidableEq, Repr

/-- Python `list.remove(x)`: delete the first element equal to `x`.
(At its only call site, line 107, the element is the one just yielded by
the iterator, so it is always present and no `ValueError` can arise.) -/
def removeFirst (sprites : List Sprite) (s : Sprite) : List Sprite :=
  match sprites with
  | [] => []
  | x :: rest => if x = s then rest else x :: removeFirst rest s

/-- The `for sprite in self.sprites:` loop of `_update` (lines 105-110)
with CPython list-iterator semantics: the iterator keeps a cursor `i`
into the list object; each step reads `sprites[i]` (stopping when
`i ≥ len(sprites)`) and advances the cursor, and the body sees — and
line 107 mutates — the same list object.  `fuel` bounds the number of
iterations; the cursor strictly increases and the list never grows, so
fuel equal to the initial length (`compactAndUpdate` below) is never
exhausted before the cursor check stops the loop. -/
def updateGo : Nat → List Sprite → Nat → List Sprite × List Event
  | 0, sprites, _ => (sprites, [])
  | fuel + 1, sprites, i =>
    if h : i < sprites.length then
      let sprite := sprites.get ⟨i, h⟩
      if sprite.killed then
        let r := updateGo fuel (removeFirst sprites sprite) (i + 1)
        (r.1, Event.removed sprite :: r.2)
      else
        let r := updateGo fuel sprites (i + 1)
        (r.1, Event.updated sprite sprites :: r.2)
    else (sprites, [])

/-- The whole sprite pass of `_update` (lines 104-110): run the loop on
the registry from cursor 0.  Returns the registry afterwards and the
trace of removals and `update` calls, in order. -/
def compactAndUpdate (sprites : List Sprite) : List Sprite × List Event :=
  updateGo sprites.length sprites 0

/-- Lines 92-94: the user-overridable hook; its default body is `pass`,
so it leaves the registry untouched. -/
def Engine.update (_dt : ℚ) (sprites : List Sprite) : List Sprite :=
  sprites

/-- Lines 102-112, one simulation tick: the sprite pass, then exactly one
call of the user hook `self.update(dt)` (recorded as `Event.hooked dt`,
interpreted by its default implementation `Engine.update`). -/
def _update (sprites : List Sprite) (dt : ℚ) : List Sprite × List Event :=
  let p := compactAndUpdate sprites
  let s := Engine.update dt p.1
  (s, p.2 ++ [Event.hooked dt])

/-- The `for sprite in self.sprites:` loop of `_animate` (lines 98-100),
same iterator semantics; the body only calls `sprite.cycle_animation()`
and never mutates the list. -/
def animateGo : Nat → List Sprite → Nat → List Event
  | 0, _, _ => []
  | fuel + 1, sprites, i =>
    if h : i < sprites.length then
      Event.animated (sprites.get ⟨i, h⟩) :: animateGo fuel sprites (i + 1)
    else []

/-- Lines 96-100, one animation tick: the registry afterwards (no
statement of `_animate` writes to `self.sprites`) and the trace of
`cycle_animation` calls. -/
def _animate (sprites : List Sprite) : List Sprite × List Event :=
  (sprites, animateGo sprites.length sprites 0)

/-- Whether an event is about sprite-id `n` (its subject is updated or
removed with that id). -/
def touches (n : Nat) : Event → Bool
  | .updated s _ => s.id == n
  | .removed s => s.id == n
  | _ => false

/-- How many `update` calls the trace records for sprite-id `n`. -/
def updateCallsFor (trace : List Event) (n : Nat) : Nat :=
  trace.countP fun e =>
    match e with
    | .updated s _ => s.id == n
    | _ => false

/-- Whether an event is a call of the user hook. -/
def isHooked : Event → Bool
  | .hooked _ => true
  | _ => false

/-! ## The asset loader `load_sprite_sheets` (lines 41-78)

The loop ranges over the files of `resources/sprites` whose extension is
in `IMAGE_EXTENSIONS` (the comprehension on lines 50-53); the input of
the model is that already-filtered list.  Each sheet file carries its
base name (the file name with the extension split off, line 56/77) and
the parsed content of its sibling `<base>_config.toml`, or `none` when
`os.path.exists(config_file)` is false (line 58).  A parsed TOML table
is modelled by optional fields: `none` means the key is absent and an
access raises `KeyError`.  The GPU texture (lines 64-65) has no bearing
on the catalog's keys or failure and is omitted from `SpriteConfig`. -/

/-- The `animation` section of a sheet's config file: the three keys the
loader reads (`size`, `modes`, `frame_count`), each possibly absent. -/
structure AnimationSection where
  size : Option (List Int)
  modes : Option Nat
  frame_count : Option (List Nat)
deriving DecidableEq, Repr

/-- A parsed `<base>_config.toml`: its `animation` table, possibly absent. -/
structure TomlConfig where
  animation : Option AnimationSection
deriving DecidableEq, Repr

/-- One image file of `resources/sprites`: its base name and the content
of its config file (`none` when no such file exists). -/
structure SheetFile where
  name : String
  config : Option TomlConfig
deriving DecidableEq, Repr

/-- The `SpriteConfig` record built on lines 70-76 (texture omitted). -/
structure SpriteConfig where
  path : String
  size : List Int
  modes : Nat
  frame_count : List Nat
deriving DecidableEq, Repr

/-- A Python `KeyError` escaping the loader, carrying the missing key. -/
inductive LoadError where
  | keyError (key : String)
deriving DecidableEq, Repr

/-- Lines 49-78.  For each sheet in order: skip it when its config file
is absent (lines 58-62, `continue` after a log line); otherwise read
`toml.load(f)['animation']` (line 68) and then `size`, `modes`,
`frame_count` in the source's evaluation order (lines 73-75), any absent
key raising `KeyError`, which aborts the whole call; on success bind the
base name to the built `SpriteConfig` (line 77).  The catalog is the
association list in insertion order. -/
def load_sprite_sheets : List SheetFile → Except LoadError (List (String × SpriteConfig))
  | [] => .ok []
  | sheet :: rest =>
    match sheet.config with
    | none => load_sprite_sheets rest
    | some cfg =>
      match cfg.animation with
      | none => .error (.keyError "animation")
      | some anim =>
        match anim.size with
        | none => .error (.keyError "size")
        | some size =>
          match anim.modes with
          | none => .error (.keyError "modes")
          | some modes =>
            match anim.frame_count with
            | none => .error (.keyError "frame_count")
            | some fc =>
              (load_sprite_sheets rest).map
                fun assets => (sheet.name, SpriteConfig.mk sheet.name size modes fc) :: assets

/-- A sheet whose config file exists but lacks one of the keys the
loader reads: loading it raises `KeyError`. -/
def malformedConfig : SheetFile → Bool
  | ⟨_, none⟩ => false
  | ⟨_, some cfg⟩ =>
    match cfg.animation with
    | none => true
    | some anim => anim.size.isNone || anim.modes.isNone || anim.frame_count.isNone

/-- Whether the loader aborted with a `KeyError` instead of returning a
catalog. -/
def raisesKeyError : Except LoadError (List (String × SpriteConfig)) → Bool
  | .error _ => true
  | .ok _ => false

/-! ## Theorems -/

/-- C1: the claim says releasing a key that is not in the pressed set
leaves the state unchanged and does not fail.  The code (line 144) calls
`set.remove`, which raises `KeyError` on an absent element: with an empty
pressed set, the key-up handler for key `(97, "a")` raises instead of
being a no-op. -/
theorem c1_keyup_absent_raises :
    _on_keyboard_up ∅ (97, "a") = .error .keyError := rfl

/-- C2: the claim says one `_update` pass over
`[A(killed=false), B(killed=true), C(killed=false)]` leaves `[A, C]` and
gives both A and C exactly one `update` call.  The code removes from
`self.sprites` while iterating it, so after B's removal the iterator
skips C: the registry does become `[A, C]` and A is updated once, but C
receives zero `update` calls. -/
theorem c2_pass_skips_after_removal :
    (compactAndUpdate [⟨0, false⟩, ⟨1, true⟩, ⟨2, false⟩]).1
        = [⟨0, false⟩, ⟨2, false⟩] ∧
      updateCallsFor (compactAndUpdate [⟨0, false⟩, ⟨1, true⟩, ⟨2, false⟩]).2 0 = 1 ∧
      updateCallsFor (compactAndUpdate [⟨0, false⟩, ⟨1, true⟩, ⟨2, false⟩]).2 2 = 0 := by
  decide

/-- C6: the claim says `_keyboard_closed` unbinds both handlers and
clears the device reference.  Starting from the bindings made in
`__init__`, the code does unbind the key-down handler and clears
`self._keyboard`, but line 117 passes `_on_keyboard_down` to the
`on_key_up` unbind, which does not match the bound `_on_keyboard_up`,
so the key-up handler stays bound. -/
theorem c6_keyboard_closed_leaves_keyup_bound :
    (_keyboard_closed initialKeyboard).1.onKeyDownBinding = none ∧
      (_keyboard_closed initialKeyboard).2 = none ∧
      (_keyboard_closed initialKeyboard).1.onKeyUpBinding = some .onKeyboardUp := by
  decide

/-- C7: press/release round-trip.  After the key-down handler for a key
code, the key is in the pressed set; a subsequent key-up handler call
for the same key code succeeds and the key is no longer in the set. -/
theorem c7_press_release_round_trip (pressed_keys : Finset String)
    (key_code : Nat × String) :
    key_code.2 ∈ _on_keyboard_down pressed_keys key_code ∧
      ∃ pressed', _on_keyboard_up (_on_keyboard_down pressed_keys key_code) key_code
          = .ok pressed' ∧ key_code.2 ∉ pressed' := by
  refine ⟨Finset.mem_insert_self _ _,
    (insert key_code.2 pressed_keys).erase key_code.2, ?_, Finset.not_mem_erase _ _⟩
  simp [_on_keyboard_up, _on_keyboard_down]

/-- Unfolding: a loop step on a killed sprite removes it and continues
past the element that shifted into its place. -/
lemma updateGo_succ_killed (fuel : Nat) (sprites : List Sprite) (i : Nat)
    (h : i < sprites.length) (hk : sprites[i].killed = true) :
    updateGo (fuel + 1) sprites i
      = ((updateGo fuel (removeFirst sprites sprites[i]) (i + 1)).1,
         Event.removed sprites[i]
           :: (updateGo fuel (removeFirst sprites sprites[i]) (i + 1)).2) := by
  simp [updateGo, h, hk]

/-- Unfolding: a loop step on a live sprite calls its `update` with the
current registry and continues. -/
lemma updateGo_succ_alive (fuel : Nat) (sprites : List Sprite) (i : Nat)
    (h : i < sprites.length) (hk : sprites[i].killed = false) :
    updateGo (fuel + 1) sprites i
      = ((updateGo fuel sprites (i + 1)).1,
         Event.updated sprites[i] sprites :: (updateGo fuel sprites (i + 1)).2) := by
  simp [updateGo, h, hk]

/-- Unfolding: the loop stops when the cursor passes the end. -/
lemma updateGo_stop (fuel : Nat) (sprites : List Sprite) (i : Nat)
    (h : ¬ i < sprites.length) :
    updateGo fuel sprites i = (sprites, []) := by
  cases fuel with
  | zero => rfl
  | succ fuel => simp [updateGo, h]

/-- With enough fuel, the animation loop from cursor `i` visits exactly
the suffix of the registry from `i` on, in order. -/
lemma animateGo_eq_map_drop (fuel : Nat) :
    ∀ (sprites : List Sprite) (i : Nat), sprites.length - i ≤ fuel →
      animateGo fuel sprites i = (sprites.drop i).map Event.animated := by
  induction fuel with
  | zero =>
    intro sprites i hf
    have : sprites.length ≤ i := by omega
    simp [animateGo, List.drop_eq_nil_of_le this]
  | succ fuel ih =>
    intro sprites i hf
    by_cases h : i < sprites.length
    · have step : animateGo (fuel + 1) sprites i
          = Event.animated sprites[i] :: animateGo fuel sprites (i + 1) := by
        simp [animateGo, h]
      rw [step, ih sprites (i + 1) (by omega), List.drop_eq_getElem_cons h, List.map_cons]
    · have hle : sprites.length ≤ i := by omega
      simp [animateGo, h, List.drop_eq_nil_of_le hle]

/-- C10: one `_animate` tick calls `cycle_animation` exactly once on
every sprite currently in the registry, in registry order — killed but
not yet removed sprites included, since the loop never reads `killed` —
and leaves the registry sequence unchanged. -/
theorem c10_animate_visits_all_in_order (sprites : List Sprite) :
    (_animate sprites).1 = sprites ∧
      (_animate sprites).2 = sprites.map Event.animated := by
  refine ⟨rfl, ?_⟩
  have h := animateGo_eq_map_drop sprites.length sprites 0 (by omega)
  simpa [_animate] using h

/-- The sprite pass itself never calls the user hook: no `hooked` event
appears in its trace. -/
lemma updateGo_countP_isHooked (fuel : Nat) :
    ∀ (sprites : List Sprite) (i : Nat),
      (updateGo fuel sprites i).2.countP isHooked = 0 := by
  induction fuel with
  | zero => intro sprites i; rfl
  | succ fuel ih =>
    intro sprites i
    by_cases h : i < sprites.length
    · rcases hk : sprites[i].killed with _ | _
      · rw [updateGo_succ_alive fuel sprites i h hk]
        rw [List.countP_cons_of_neg _ _ (by simp [isHooked]), ih]
      · rw [updateGo_succ_killed fuel sprites i h hk]
        rw [List.countP_cons_of_neg _ _ (by simp [isHooked]), ih]
    · simp [updateGo_stop, h]

/-- C8: one simulation tick is the full sprite pass followed by exactly
one call of the user hook: the tick's trace is the pass's trace with a
single `hooked dt` event appended (so the hook runs after the whole
pass), and the default hook `Engine.update` leaves the registry as the
pass produced it. -/
theorem c8_tick_compacts_then_hooks_once (sprites : List Sprite) (dt : ℚ) :
    (_update sprites dt).2 = (compactAndUpdate sprites).2 ++ [Event.hooked dt] ∧
      (_update sprites dt).2.countP isHooked = 1 ∧
      (compactAndUpdate sprites).2.countP isHooked = 0 ∧
      (_update sprites dt).1 = (compactAndUpdate sprites).1 ∧
      Engine.update dt (compactAndUpdate sprites).1 = (compactAndUpdate sprites).1 := by
  refine ⟨rfl, ?_, updateGo_countP_isHooked _ _ _, rfl, rfl⟩
  rw [show (_update sprites dt).2 = (compactAndUpdate sprites).2 ++ [Event.hooked dt] from rfl,
    List.countP_append]
  rw [show (compactAndUpdate sprites).2.countP isHooked = 0 from
    updateGo_countP_isHooked _ _ _]
  rfl

/-- `list.remove` yields a sublist of the original list; in particular
anything in the result was in the original. -/
lemma removeFirst_subset (s : Sprite) :
    ∀ (sprites : List Sprite) (x : Sprite), x ∈ removeFirst sprites s → x ∈ sprites := by
  intro sprites
  induction sprites with
  | nil => intro x hx; simp [removeFirst] at hx
  | cons a rest ih =>
    intro x hx
    by_cases ha : a = s
    · simp only [removeFirst, if_pos ha] at hx
      exact List.mem_cons_of_mem a hx
    · simp only [removeFirst, if_neg ha, List.mem_cons] at hx
      rcases hx with hx | hx
      · exact hx ▸ List.mem_cons_self a rest
      · exact List.mem_cons_of_mem a (ih x hx)

/-- The subject of every removal event of the sprite pass was in the
registry at that moment (hence in the list the pass started from) and
had its `killed` flag set: the pass removes only killed sprites. -/
lemma removed_mem_of_mem_trace (fuel : Nat) :
    ∀ (sprites : List Sprite) (i : Nat) (r : Sprite),
      Event.removed r ∈ (updateGo fuel sprites i).2 → r ∈ sprites ∧ r.killed = true := by
  induction fuel with
  | zero => intro sprites i r hr; simp [updateGo] at hr
  | succ fuel ih =>
    intro sprites i r hr
    by_cases h : i < sprites.length
    · rcases hk : sprites[i].killed with _ | _
      · rw [updateGo_succ_alive fuel sprites i h hk] at hr
        simp only [List.mem_cons] at hr
        rcases hr with hr | hr
        · exact absurd hr (by simp)
        · exact ih sprites (i + 1) r hr
      · rw [updateGo_succ_killed fuel sprites i h hk] at hr
        simp only [List.mem_cons] at hr
        rcases hr with hr | hr
        · obtain ⟨rfl⟩ : r = sprites[i] := by
            injection hr
          exact ⟨List.getElem_mem h, hk⟩
        · obtain ⟨hmem, hkill⟩ := ih _ (i + 1) r hr
          exact ⟨removeFirst_subset _ sprites r hmem, hkill⟩
    · rw [updateGo_stop fuel.succ sprites i h] at hr
      simp at hr

/-- If an `update` call appears in the pass's trace and a removal event
appears after it, the removed sprite — killed, not yet removed — is in
the peer list that the `update` call received. -/
lemma updated_sees_later_removed (fuel : Nat) :
    ∀ (sprites : List Sprite) (i : Nat) (t1 t2 : List Event) (s : Sprite)
      (peers : List Sprite) (r : Sprite),
      (updateGo fuel sprites i).2 = t1 ++ Event.updated s peers :: t2 →
      Event.removed r ∈ t2 → r ∈ peers ∧ r.killed = true := by
  induction fuel with
  | zero =>
    intro sprites i t1 t2 s peers r hsplit hr
    exact absurd hsplit.symm (by simp [updateGo])
  | succ fuel ih =>
    intro sprites i t1 t2 s peers r hsplit hr
    by_cases h : i < sprites.length
    · rcases hk : sprites[i].killed with _ | _
      · rw [updateGo_succ_alive fuel sprites i h hk] at hsplit
        rcases t1 with _ | ⟨e, t1⟩
        · simp only [List.nil_append] at hsplit
          obtain ⟨hhead, htail⟩ := List.cons_eq_cons.mp hsplit
          have hpeers : sprites = peers := by injection hhead
          obtain ⟨hmem, hkill⟩ := removed_mem_of_mem_trace fuel sprites (i + 1) r (htail ▸ hr)
          exact ⟨hpeers ▸ hmem, hkill⟩
        · simp only [List.cons_append] at hsplit
          obtain ⟨-, htail⟩ := List.cons_eq_cons.mp hsplit
          exact ih sprites (i + 1) t1 t2 s peers r htail hr
      · rw [updateGo_succ_killed fuel sprites i h hk] at hsplit
        rcases t1 with _ | ⟨e, t1⟩
        · simp only [List.nil_append] at hsplit
          obtain ⟨hhead, -⟩ := List.cons_eq_cons.mp hsplit
          exact absurd hhead (by simp)
        · simp only [List.cons_append] at hsplit
          obtain ⟨-, htail⟩ := List.cons_eq_cons.mp hsplit
          exact ih (removeFirst sprites sprites[i]) (i + 1) t1 t2 s peers r htail hr
    · rw [updateGo_stop fuel.succ sprites i h] at hsplit
      exact absurd hsplit.symm (by simp)

/-- C3: every sprite whose `update` is invoked during the pass receives
the registry as it stands at the moment of its own processing: whenever
some sprite is removed later in the same pass, it was still present —
killed but not yet removed — in the peer list passed to each earlier
`update` call. -/
theorem c3_update_sees_current_list (sprites : List Sprite) (t1 t2 : List Event)
    (s : Sprite) (peers : List Sprite) (r : Sprite)
    (hsplit : (compactAndUpdate sprites).2 = t1 ++ Event.updated s peers :: t2)
    (hr : Event.removed r ∈ t2) :
    r ∈ peers ∧ r.killed = true :=
  updated_sees_later_removed sprites.length sprites 0 t1 t2 s peers r hsplit hr

/-- Witness for C3 on the registry `[A, B, C]` with only B killed: A's
`update` call happens before B's removal, and indeed B is in the peer
list A received, with its `killed` flag set. -/
theorem c3_witness :
    (⟨1, true⟩ : Sprite) ∈ [(⟨0, false⟩ : Sprite), ⟨1, true⟩, ⟨2, false⟩] ∧
      (⟨1, true⟩ : Sprite).killed = true :=
  c3_update_sees_current_list [⟨0, false⟩, ⟨1, true⟩, ⟨2, false⟩]
    [] [Event.removed ⟨1, true⟩] ⟨0, false⟩ [⟨0, false⟩, ⟨1, true⟩, ⟨2, false⟩]
    ⟨1, true⟩ (by decide) (by decide)

/-- When the registry holds pairwise distinct sprite objects (modelled
as distinct ids), sprites at distinct positions have distinct ids. -/
lemma getElem_id_ne (l : List Sprite) (i j : Nat) (hi : i < l.length)
    (hj : j < l.length) (hij : i ≠ j) (hnd : (l.map Sprite.id).Nodup) :
    l[i].id ≠ l[j].id := by
  intro hid
  have hi' : i < (l.map Sprite.id).length := by simpa using hi
  have hj' : j < (l.map Sprite.id).length := by simpa using hj
  have : (l.map Sprite.id)[i] = (l.map Sprite.id)[j] := by
    rw [List.getElem_map, List.getElem_map]; exact hid
  exact hij (hnd.getElem_inj_iff.mp this)

/-- With pairwise distinct sprite objects, removing the sprite read at
position `i` removes exactly the element at position `i`. -/
lemma removeFirst_eq_eraseIdx :
    ∀ (l : List Sprite) (i : Nat) (hi : i < l.length),
      (l.map Sprite.id).Nodup → removeFirst l l[i] = l.eraseIdx i := by
  intro l
  induction l with
  | nil => intro i hi; simp at hi
  | cons a rest ih =>
    intro i hi hnd
    rcases i with _ | k
    · simp [removeFirst]
    · have hk : k < rest.length := by simpa using hi
      have hne : a ≠ rest[k] := by
        intro he
        have : a.id ∈ rest.map Sprite.id := he ▸ List.mem_map_of_mem _ (List.getElem_mem hk)
        simp only [List.map_cons, List.nodup_cons] at hnd
        exact hnd.1 this
      have hnd' : (rest.map Sprite.id).Nodup := by
        simp only [List.map_cons, List.nodup_cons] at hnd
        exact hnd.2
      show removeFirst (a :: rest) rest[k] = (a :: rest).eraseIdx (k + 1)
      simp only [removeFirst, if_neg hne, List.eraseIdx_cons_succ]
      rw [ih k hk hnd']

/-- Elements strictly before the loop cursor are finished: the rest of
the pass never mentions them again (no `update` call, no removal) and
they survive into the final registry. -/
lemma before_cursor_untouched (fuel : Nat) :
    ∀ (l : List Sprite) (i j : Nat) (hj : j < l.length), j < i →
      (l.map Sprite.id).Nodup →
      (∀ e ∈ (updateGo fuel l i).2, touches l[j].id e = false) ∧
        l[j] ∈ (updateGo fuel l i).1 := by
  induction fuel with
  | zero =>
    intro l i j hj hij hnd
    exact ⟨by simp [updateGo], List.getElem_mem hj⟩
  | succ fuel ih =>
    intro l i j hj hij hnd
    by_cases h : i < l.length
    · rcases hk : l[i].killed with _ | _
      · rw [updateGo_succ_alive fuel l i h hk]
        obtain ⟨htr, hfin⟩ := ih l (i + 1) j hj (by omega) hnd
        refine ⟨?_, hfin⟩
        intro e he
        rcases List.mem_cons.mp he with rfl | he
        · simp [touches, getElem_id_ne l i j h hj (by omega) hnd]
        · exact htr e he
      · rw [updateGo_succ_killed fuel l i h hk]
        rw [removeFirst_eq_eraseIdx l i h hnd]
        have hlen : (l.eraseIdx i).length = l.length - 1 := by
          rw [List.length_eraseIdx]; simp [h]
        have hj' : j < (l.eraseIdx i).length := by omega
        have hnd' : ((l.eraseIdx i).map Sprite.id).Nodup :=
          ((List.eraseIdx_sublist l i).map Sprite.id).nodup hnd
        have hgetj : (l.eraseIdx i)[j] = l[j] := by
          rw [List.getElem_eraseIdx]; simp [hij]
        obtain ⟨htr, hfin⟩ := ih (l.eraseIdx i) (i + 1) j hj' (by omega) hnd'
        rw [hgetj] at htr hfin
        refine ⟨?_, hfin⟩
        intro e he
        rcases List.mem_cons.mp he with rfl | he
        · simp [touches, getElem_id_ne l i j h hj (by omega) hnd]
        · exact htr e he
    · rw [updateGo_stop fuel.succ l i h]
      exact ⟨by simp, List.getElem_mem hj⟩

/-- C9: when a pass removes a killed sprite at the cursor position `i`,
the sprite that shifts from position `i+1` into position `i` is not
processed at all in the remainder of that pass: no `update` call and no
removal event mentions it (so even a killed shifted sprite stays), and
it is still in the registry when the pass ends. -/
theorem c9_shifted_sprite_not_processed (fuel i : Nat) (l : List Sprite) (x : Sprite)
    (hnd : (l.map Sprite.id).Nodup) (hi : i + 1 < l.length)
    (hk : l[i].killed = true) (hx : l[i + 1] = x) :
    ((updateGo (fuel + 1) l i).2.all fun e => ! touches x.id e) = true ∧
      x ∈ (updateGo (fuel + 1) l i).1 := by
  have h : i < l.length := by omega
  rw [updateGo_succ_killed fuel l i h hk, removeFirst_eq_eraseIdx l i h hnd]
  have hlen : (l.eraseIdx i).length = l.length - 1 := by
    rw [List.length_eraseIdx]; simp [h]
  have hi' : i < (l.eraseIdx i).length := by omega
  have hnd' : ((l.eraseIdx i).map Sprite.id).Nodup :=
    ((List.eraseIdx_sublist l i).map Sprite.id).nodup hnd
  have hget : (l.eraseIdx i)[i] = x := by
    rw [List.getElem_eraseIdx]; simp [hx]
  obtain ⟨htr, hfin⟩ :=
    before_cursor_untouched fuel (l.eraseIdx i) (i + 1) i hi' (by omega) hnd'
  rw [hget] at htr hfin
  refine ⟨?_, hfin⟩
  rw [List.all_cons]
  have hhead : touches x.id (Event.removed l[i]) = false := by
    have := getElem_id_ne l i (i + 1) h hi (by omega) hnd
    rw [← hx]
    simp [touches, this]
  rw [hhead]
  simp only [Bool.not_false, Bool.true_and, List.all_eq_true]
  intro e he
  simp [htr e he]

/-- Witness for C9 on the registry `[B(killed), C]` at cursor 0: the
step removes B, and C — shifted into position 0 — is mentioned by no
event of the pass and survives in the final registry. -/
theorem c9_witness :
    ((updateGo 1 [(⟨1, true⟩ : Sprite), ⟨2, false⟩] 0).2.all
        fun e => ! touches (Sprite.mk 2 false).id e) = true ∧
      (⟨2, false⟩ : Sprite) ∈ (updateGo 1 [(⟨1, true⟩ : Sprite), ⟨2, false⟩] 0).1 :=
  c9_shifted_sprite_not_processed 0 0 [⟨1, true⟩, ⟨2, false⟩] ⟨2, false⟩
    (by decide) (by decide) (by decide) (by decide)

/-- A malformed sheet at the head of the list makes the whole load
raise. -/
lemma load_error_of_malformed_head (a : SheetFile) (rest : List SheetFile)
    (hm : malformedConfig a = true) :
    raisesKeyError (load_sprite_sheets (a :: rest)) = true := by
  obtain ⟨name, cfg⟩ := a
  rcases cfg with _ | ⟨anim⟩
  · simp [malformedConfig] at hm
  · rcases anim with _ | ⟨size, modes, fc⟩
    · simp [load_sprite_sheets, raisesKeyError]
    · rcases size with _ | size
      · simp [load_sprite_sheets, raisesKeyError]
      · rcases modes with _ | modes
        · simp [load_sprite_sheets, raisesKeyError]
        · rcases fc with _ | fc
          · simp [load_sprite_sheets, raisesKeyError]
          · simp [malformedConfig] at hm

/-- A raising tail keeps the whole load raising, whatever the head
sheet does. -/
lemma load_error_of_error_tail (a : SheetFile) (rest : List SheetFile)
    (ht : raisesKeyError (load_sprite_sheets rest) = true) :
    raisesKeyError (load_sprite_sheets (a :: rest)) = true := by
  obtain ⟨hrest, herr⟩ : ∃ err, load_sprite_sheets rest = .error err := by
    cases hr : load_sprite_sheets rest with
    | error e => exact ⟨e, rfl⟩
    | ok cat => rw [hr] at ht; simp [raisesKeyError] at ht
  obtain ⟨name, cfg⟩ := a
  rcases cfg with _ | ⟨anim⟩
  · simp only [load_sprite_sheets]
    rw [herr]
    rfl
  · rcases anim with _ | ⟨size, modes, fc⟩
    · simp [load_sprite_sheets, raisesKeyError]
    · rcases size with _ | size
      · simp [load_sprite_sheets, raisesKeyError]
      · rcases modes with _ | modes
        · simp [load_sprite_sheets, raisesKeyError]
        · rcases fc with _ | fc
          · simp [load_sprite_sheets, raisesKeyError]
          · simp [load_sprite_sheets, herr, raisesKeyError, Except.map]

/-- C4: when any sheet of the directory has a config file that is
present but lacks a key the loader reads (the `animation` table itself,
or its `size`, `modes` or `frame_count`), the whole `load_sprite_sheets`
call raises `KeyError` and returns no catalog at all — so `self.assets`
(line 35) is never bound to a partially populated mapping. -/
theorem c4_malformed_config_fails_whole_load (sheets : List SheetFile) (s : SheetFile)
    (hs : s ∈ sheets) (hm : malformedConfig s = true) :
    raisesKeyError (load_sprite_sheets sheets) = true := by
  induction sheets with
  | nil => simp at hs
  | cons a rest ih =>
    rcases List.mem_cons.mp hs with rfl | hs
    · exact load_error_of_malformed_head s rest hm
    · exact load_error_of_error_tail a rest (ih hs)

/-- Witness for C4: a single sheet `hero` whose config file exists but
has no `modes` key in its `animation` table makes the load raise. -/
theorem c4_witness :
    raisesKeyError (load_sprite_sheets
      [⟨"hero", some ⟨some ⟨some [16, 16], none, some [4, 4]⟩⟩⟩]) = true :=
  c4_malformed_config_fails_whole_load
    [⟨"hero", some ⟨some ⟨some [16, 16], none, some [4, 4]⟩⟩⟩]
    ⟨"hero", some ⟨some ⟨some [16, 16], none, some [4, 4]⟩⟩⟩
    (by simp) (by decide)

/-- Skipping is local: a sheet without a config file contributes
nothing, and the load of the rest is unchanged. -/
lemma load_skips_configless (e : SheetFile) (he : e.config = none) :
    ∀ (pre post : List SheetFile),
      load_sprite_sheets (pre ++ e :: post) = load_sprite_sheets (pre ++ post) := by
  intro pre
  induction pre with
  | nil =>
    intro post
    simp only [List.nil_append]
    obtain ⟨name, cfg⟩ := e
    cases cfg with
    | none => simp [load_sprite_sheets]
    | some c => simp at he
  | cons a pre ih =>
    intro post
    simp only [List.cons_append]
    obtain ⟨name, cfg⟩ := a
    rcases cfg with _ | ⟨anim⟩
    · simp [load_sprite_sheets, ih post]
    · rcases anim with _ | ⟨size, modes, fc⟩
      · simp [load_sprite_sheets]
      · rcases size with _ | size
        · simp [load_sprite_sheets]
        · rcases modes with _ | modes
          · simp [load_sprite_sheets]
          · rcases fc with _ | fc
            · simp [load_sprite_sheets]
            · simp only [load_sprite_sheets, ih post]

/-- Every key of a successfully returned catalog is the base name of a
sheet that had a config file. -/
lemma catalog_keys_from_config :
    ∀ (sheets : List SheetFile) (cat : List (String × SpriteConfig)),
      load_sprite_sheets sheets = .ok cat →
      ∀ kv ∈ cat, ∃ s, s ∈ sheets ∧ s.config ≠ none ∧ s.name = kv.1 := by
  intro sheets
  induction sheets with
  | nil =>
    intro cat hok kv hkv
    obtain rfl : ([] : List (String × SpriteConfig)) = cat := by
      simpa [load_sprite_sheets] using hok
    simp at hkv
  | cons a rest ih =>
    intro cat hok kv hkv
    obtain ⟨name, cfg⟩ := a
    rcases cfg with _ | ⟨anim⟩
    · simp only [load_sprite_sheets] at hok
      obtain ⟨s, hmem, hs⟩ := ih cat hok kv hkv
      exact ⟨s, List.mem_cons_of_mem _ hmem, hs⟩
    · rcases anim with _ | ⟨size, modes, fc⟩
      · simp [load_sprite_sheets] at hok
      · rcases size with _ | size
        · simp [load_sprite_sheets] at hok
        · rcases modes with _ | modes
          · simp [load_sprite_sheets] at hok
          · rcases fc with _ | fc
            · simp [load_sprite_sheets] at hok
            · cases hrest : load_sprite_sheets rest with
              | error err => simp [load_sprite_sheets, hrest, Except.map] at hok
              | ok cat' =>
                simp only [load_sprite_sheets, hrest, Except.map] at hok
                obtain rfl : (name, SpriteConfig.mk name size modes fc) :: cat' = cat := by
                  injection hok
                rcases List.mem_cons.mp hkv with rfl | hkv
                · exact ⟨⟨name, some ⟨some ⟨some size, some modes, some fc⟩⟩⟩,
                    List.mem_cons_self _ _, by simp, rfl⟩
                · obtain ⟨s, hmem, hs⟩ := ih cat' hrest kv hkv
                  exact ⟨s, List.mem_cons_of_mem _ hmem, hs⟩

/-- C5: a sheet image whose sibling config file does not exist is
skipped without raising: the load of the whole directory equals the
load without that sheet, and — when the call returns a catalog — no key
for that sheet's base name is in it (base names are pairwise distinct,
one file per name in a directory). -/
theorem c5_configless_sheet_skipped (pre post : List SheetFile) (e : SheetFile)
    (cat : List (String × SpriteConfig)) (hc : e.config = none)
    (hnd : ((pre ++ e :: post).map SheetFile.name).Nodup)
    (hok : load_sprite_sheets (pre ++ e :: post) = .ok cat) :
    load_sprite_sheets (pre ++ e :: post) = load_sprite_sheets (pre ++ post) ∧
      e.name ∉ cat.map Prod.fst := by
  refine ⟨load_skips_configless e hc pre post, ?_⟩
  intro hmem
  obtain ⟨kv, hkv, hname⟩ := List.mem_map.mp hmem
  obtain ⟨s, hsmem, hscfg, hsname⟩ :=
    catalog_keys_from_config (pre ++ e :: post) cat hok kv hkv
  have hemem : e ∈ pre ++ e :: post := List.mem_append_right _ (List.mem_cons_self _ _)
  have hse : s = e :=
    List.inj_on_of_nodup_map hnd hsmem hemem (by rw [hsname, hname])
  rw [hse, hc] at hscfg
  exact hscfg rfl

/-- Witness for C5: the directory holds `hero` with no config file and a
well-formed `spam`; the load skips `hero`, equals the load of `spam`
alone, and the returned catalog has no `hero` key. -/
theorem c5_witness :
    load_sprite_sheets
        [⟨"hero", none⟩, ⟨"spam", some ⟨some ⟨some [8, 8], some 2, some [3, 3]⟩⟩⟩]
      = load_sprite_sheets [⟨"spam", some ⟨some ⟨some [8, 8], some 2, some [3, 3]⟩⟩⟩] ∧
      (SheetFile.mk "hero" none).name
        ∉ ([("spam", SpriteConfig.mk "spam" [8, 8] 2 [3, 3])].map Prod.fst) :=
  c5_configless_sheet_skipped []
    [⟨"spam", some ⟨some ⟨some [8, 8], some 2, some [3, 3]⟩⟩⟩] ⟨"hero", none⟩
    [("spam", SpriteConfig.mk "spam" [8, 8] 2 [3, 3])]
    rfl (by decide) rfl

end Firestarter
